import Mathlib

/-!
# Lagwell pump-test analysis: verification of the spec against the code

This file embeds, in Lean 4, the parts of the Lagwell repository that the
specification's claims are about:

* the CSV/text ingestion routine `parseCsvOrText` of the web frontend
  (`docs/app.js`), embedded faithfully over `List Char` with JavaScript
  numbers modelled as `JsNum` (a rational when finite, `nan` otherwise);
* the result-assembly filter `filterParamsForModel` / `getModelParamKeySet`
  of the frontend, over association lists standing for JS objects;
* the parameter-estimation core (`fit` / `fit_with_ci` in `py/solver.py`,
  which the frontend fetches at runtime and which is therefore modelled
  from the specification's contract), with the numerical optimizer injected
  as an explicit function argument and bootstrap randomness injected as an
  explicit resampling plan;
* the Theis drawdown model over the reals, with the well function as the
  exponential integral.
-/

namespace Lagwell

/-! ## Kernel-computable rational arithmetic

The `Rat` arithmetic operations of the standard library are `@[irreducible]`
and so cannot be evaluated by `decide`/`rfl` witnesses.  The embedded code
therefore computes with the following wrappers, built on `Rat.divInt`
(which does reduce); each is proved equal to the standard operation. -/

def qAdd (a b : ℚ) : ℚ := Rat.divInt (a.num * b.den + b.num * a.den) ((a.den : ℤ) * b.den)

def qSub (a b : ℚ) : ℚ := Rat.divInt (a.num * b.den - b.num * a.den) ((a.den : ℤ) * b.den)

def qMul (a b : ℚ) : ℚ := Rat.divInt (a.num * b.num) ((a.den : ℤ) * b.den)

def qDiv (a b : ℚ) : ℚ := Rat.divInt (a.num * b.den) ((a.den : ℤ) * b.num)

/-! ## JavaScript numbers

A JavaScript number, classified by finiteness.  Finite values are modelled
as exact rationals; `NaN` and the two infinities are collapsed into `nan`
(every use below only ever asks `Number.isFinite`, which is `false` on all
three).  Exponent overflow to `Infinity` (e.g. `1e999`) is not modelled:
rationals are exact. -/
inductive JsNum where
  | finite (q : ℚ)
  | nan
deriving DecidableEq

def JsNum.isFinite : JsNum → Bool
  | .finite _ => true
  | .nan => false

/-! ## A model of JavaScript `parseFloat`

`parseFloat` skips leading whitespace, then reads the longest prefix of the
form `[+-]? digits [. digits]? ([eE] [+-]? digits)?` (either the integer or
the fraction digits may be empty, not both); if no such prefix exists the
result is `NaN`.  The strings `Infinity`/`-Infinity` parse to infinities,
which are non-finite like `NaN`; since `JsNum` collapses all non-finite
values, a parse that finds no digits is returned as `nan` uniformly. -/

def parseSign : List Char → (Bool × List Char)
  | '-' :: rest => (true, rest)
  | '+' :: rest => (false, rest)
  | cs => (false, cs)

def natOfDigits (ds : List Char) : ℕ :=
  ds.foldl (fun a c => a * 10 + (c.toNat - '0'.toNat)) 0

/-- The exponent written after `e`/`E`: an optional sign and digits; if the
digits are absent the exponent part is not part of the numeric prefix and
contributes `0`. -/
def parseExponent (cs : List Char) : ℤ :=
  let (neg, cs1) := parseSign cs
  let ds := cs1.takeWhile Char.isDigit
  if ds.isEmpty then 0
  else if neg then -(natOfDigits ds : ℤ) else (natOfDigits ds : ℤ)

/-- `parseFloat` on an explicit character list, composed with JavaScript's
`Number.isFinite` classification. -/
def jsParseFloatL (cs₀ : List Char) : JsNum :=
  let cs := cs₀.dropWhile Char.isWhitespace
  let (neg, cs1) := parseSign cs
  let ids := cs1.takeWhile Char.isDigit
  let cs2 := cs1.dropWhile Char.isDigit
  let (fds, cs3) :=
    match cs2 with
    | '.' :: rest => (rest.takeWhile Char.isDigit, rest.dropWhile Char.isDigit)
    | _ => ([], cs2)
  if ids.isEmpty ∧ fds.isEmpty then .nan
  else
    let e : ℤ :=
      match cs3 with
      | 'e' :: rest => parseExponent rest
      | 'E' :: rest => parseExponent rest
      | _ => 0
    -- the parsed value is (I + F/10^L) · 10^e, built directly as one
    -- quotient of integers so that it evaluates inside the kernel
    let baseNum : ℤ := (natOfDigits ids * 10 ^ fds.length + natOfDigits fds : ℕ)
    let v : ℚ :=
      if 0 ≤ e then Rat.divInt (baseNum * 10 ^ e.toNat) ((10 : ℤ) ^ fds.length)
      else Rat.divInt baseNum ((10 : ℤ) ^ fds.length * 10 ^ (-e).toNat)
    .finite (if neg then -v else v)

def jsParseFloat (s : String) : JsNum := jsParseFloatL s.toList

/-! ## String splitting and trimming, as in the frontend -/

/-- JavaScript `String.prototype.split` with a single-character separator:
splits into (possibly empty) pieces, one more piece than separators. -/
def splitOnChar (sep : Char) : List Char → List (List Char)
  | [] => [[]]
  | c :: rest =>
    let r := splitOnChar sep rest
    if c = sep then [] :: r
    else
      match r with
      | h :: t => (c :: h) :: t
      | [] => [[c]]

/-- JavaScript `String.prototype.trim` (restricted to ASCII whitespace,
which covers every string the application feeds it). -/
def trimChars (cs : List Char) : List Char :=
  ((cs.dropWhile Char.isWhitespace).reverse.dropWhile Char.isWhitespace).reverse

/-- Splitting on the regular expression `/\r?\n/`: split on `'\n'`, then
drop a single carriage return left at the end of each piece. -/
def splitLines (cs : List Char) : List (List Char) :=
  (splitOnChar '\n' cs).map fun l =>
    if l.getLast? = some '\r' then l.dropLast else l

def toLowerList (cs : List Char) : List Char := cs.map Char.toLower

def liStarts : List Char → List Char → Bool
  | [], _ => true
  | _ :: _, [] => false
  | a :: as, b :: bs => a = b && liStarts as bs

def liContains (needle : List Char) : List Char → Bool
  | [] => needle.isEmpty
  | c :: rest => liStarts needle (c :: rest) || liContains needle rest

/-- `/pat/i.test(h)` for a pattern with no metacharacters: case-insensitive
substring containment. -/
def testCI (pat : String) (h : List Char) : Bool :=
  liContains (toLowerList pat.toList) (toLowerList h)

/-- `/r(_m)?/i.test(h)`: the optional group is irrelevant to `test`, so this
matches exactly when `h` contains the letter `r` in either case. -/
def testR (h : List Char) : Bool := (toLowerList h).contains 'r'

/-- `/Q(_m3ph)?/i.test(h)`: matches exactly when `h` contains `q`/`Q`. -/
def testQ (h : List Char) : Bool := (toLowerList h).contains 'q'

/-- JavaScript `Array.prototype.findIndex`, with `-1` as `none`. -/
def jsFindIndex (p : List Char → Bool) : List (List Char) → Option ℕ
  | [] => none
  | h :: t => if p h then some 0 else (jsFindIndex p t).map (· + 1)

/-! ## `parseCsvOrText` (docs/app.js)

The frontend's CSV/text ingestion.  `row[i]` past the end of a row is
`undefined` in JavaScript and `parseFloat(undefined)` is `NaN`; `cellNum`
returns `nan` in that case. -/

/-- `parseFloat(row[i])` with out-of-range access yielding `NaN`. -/
def cellNum (row : List (List Char)) (i : ℕ) : JsNum :=
  match row.get? i with
  | some cs => jsParseFloatL cs
  | none => .nan

/-- The record returned by `parseCsvOrText`.  The JS object's fields are
`data`, `times`, `draws`, `_r`, `_Q`; the latter two are named `rOut`/`qOut`
here because Lean reserves identifiers beginning with an underscore. -/
structure ParseResult where
  data : List (JsNum × JsNum)
  times : List JsNum
  draws : List JsNum
  rOut : JsNum
  qOut : JsNum
deriving DecidableEq

/-- The loop state of the row loop in `parseCsvOrText`. -/
structure RowState where
  data : List (JsNum × JsNum)
  times : List JsNum
  draws : List JsNum
  r : JsNum
  q : JsNum
deriving DecidableEq

/-- `data.push({t, s}); times.push(t); draws.push(s);` -/
def pushObs (st : RowState) (t s : JsNum) : RowState :=
  { st with
    data := st.data ++ [(t, s)]
    times := st.times ++ [t]
    draws := st.draws ++ [s] }

/-- `if (idxR !== -1 && !Number.isFinite(r)) r = parseFloat(row[idxR]);` -/
def latchR (row : List (List Char)) (idxR : Option ℕ) (st : RowState) : RowState :=
  match idxR with
  | some j => if !st.r.isFinite then { st with r := cellNum row j } else st
  | none => st

/-- `if (idxQ !== -1 && !Number.isFinite(Q)) Q = parseFloat(row[idxQ]);` -/
def latchQ (row : List (List Char)) (idxQ : Option ℕ) (st : RowState) : RowState :=
  match idxQ with
  | some j => if !st.q.isFinite then { st with q := cellNum row j } else st
  | none => st

/-- One iteration of the row loop of `parseCsvOrText`: split the line on
commas, trim each cell, skip the row when its first cell is empty or when
time/drawdown fail `Number.isFinite`, otherwise push the pair and — on such
kept rows only — latch the radius and pumping-rate cells while those are
still non-finite. -/
def processRowOn (idxT idxS : ℕ) (idxR idxQ : Option ℕ) (st : RowState)
    (row : List (List Char)) : RowState :=
  if (row.headD []).isEmpty then st
  else if ((cellNum row idxT).isFinite && (cellNum row idxS).isFinite) then
    latchQ row idxQ (latchR row idxR (pushObs st (cellNum row idxT) (cellNum row idxS)))
  else st

def processRow (idxT idxS : ℕ) (idxR idxQ : Option ℕ) (st : RowState)
    (line : List Char) : RowState :=
  processRowOn idxT idxS idxR idxQ st ((splitOnChar ',' line).map trimChars)

/-- The list of nonempty lines of the trimmed input. -/
def linesOf (txt : String) : List (List Char) :=
  (splitLines (trimChars txt.toList)).filter fun l => !l.isEmpty

/-- The trimmed header cells (first line), empty when there are no lines. -/
def headersOf (txt : String) : List (List Char) :=
  match linesOf txt with
  | [] => []
  | h :: _ => (splitOnChar ',' h).map trimChars

/-- The data lines (all lines after the header). -/
def dataLinesOf (txt : String) : List (List Char) := (linesOf txt).tail

/-- The final loop state of `parseCsvOrText`, given the located column
indices: the fold of the row loop from the initial state, whose radius and
pumping rate start from the defaults when those pass `Number.isFinite` and
from `NaN` otherwise. -/
def finalState (iT iS : ℕ) (iR iQ : Option ℕ) (dataLines : List (List Char))
    (defaultR defaultQ : JsNum) : RowState :=
  dataLines.foldl (processRow iT iS iR iQ)
    ⟨[], [], [],
      if defaultR.isFinite then defaultR else JsNum.nan,
      if defaultQ.isFinite then defaultQ else JsNum.nan⟩

/-- The body of `parseCsvOrText` once the header line has been split and
trimmed: locate the four columns, fail when time/drawdown are missing, run
the row loop and fall back to the defaults for radius/pumping rate. -/
def parseBody (headers dataLines : List (List Char)) (defaultR defaultQ : JsNum) :
    Except String ParseResult :=
  match jsFindIndex (testCI "time_min") headers, jsFindIndex (testCI "drawdown_m") headers with
  | some iT, some iS =>
    let st := finalState iT iS (jsFindIndex testR headers) (jsFindIndex testQ headers)
      dataLines defaultR defaultQ
    .ok ⟨st.data, st.times, st.draws,
      if st.r.isFinite then st.r else defaultR,
      if st.q.isFinite then st.q else defaultQ⟩
  | _, _ => .error "CSV must include time_min and drawdown_m columns."

/-- `parseCsvOrText(txt, defaultR, defaultQ)` from docs/app.js.  Throwing
`new Error(...)` is modelled with `Except String`. -/
def parseCsvOrText (txt : String) (defaultR defaultQ : JsNum) :
    Except String ParseResult :=
  match linesOf txt with
  | [] => .ok ⟨[], [], [], defaultR, defaultQ⟩
  | headerLine :: dataLines =>
    parseBody ((splitOnChar ',' headerLine).map trimChars) dataLines defaultR defaultQ

/-- The row-loop invariant behind claim C9: the three accumulated lists grow
in lockstep and hold only finite values. -/
def goodState (st : RowState) : Prop :=
  st.times.length = st.draws.length ∧
    (∀ x ∈ st.times, x.isFinite = true) ∧ (∀ x ∈ st.draws, x.isFinite = true)

/-! ### Where the returned radius comes from

The radius tracked by the row loop evolves autonomously: it depends only on
the rows and on the located column indices, never on the other state
fields.  `radiusScan` is that evolution in isolation — starting from `r`,
it latches the first `Number.isFinite` parse of column `iR` over the rows
that were not skipped. -/

def radiusStep (iT iS : ℕ) (iR : Option ℕ) (r : JsNum) (row : List (List Char)) : JsNum :=
  if (row.headD []).isEmpty then r
  else if ((cellNum row iT).isFinite && (cellNum row iS).isFinite) then
    match iR with
    | some j => if !r.isFinite then cellNum row j else r
    | none => r
  else r

def radiusScan (iT iS : ℕ) (iR : Option ℕ) (lines : List (List Char)) (r : JsNum) : JsNum :=
  lines.foldl (fun r line => radiusStep iT iS iR r ((splitOnChar ',' line).map trimChars)) r

/-! ## Result assembly: `getModelParamKeySet` / `filterParamsForModel` (docs/app.js)

JS objects are modelled as association lists in insertion order (the order
`Object.keys` iterates).  A parameter entry of the model metadata carries an
optional `key` and an optional `symbol`; `getModelParamKeySet` takes `key`
when it is a string, else `symbol`, and keeps the non-blank results.  The
JS `Set` only ever answers membership queries, so a list with `contains`
is an equivalent model. -/

/-- One entry of `modelMeta.parameters`.  A field is `none` when the JS
property is absent or not a string. -/
structure ParamMeta where
  key : Option String
  symbol : Option String
deriving DecidableEq

/-- Model metadata as consulted by the filter: its `parameters` array.
`none` stands for a missing/failed-to-load `modelMeta` object. -/
structure ModelMeta where
  parameters : List ParamMeta
deriving DecidableEq

def metaKeyOf (p : ParamMeta) : Option String :=
  match p.key with
  | some k => some k
  | none => p.symbol

def getModelParamKeySet (meta : Option ModelMeta) : List String :=
  match meta with
  | none => []
  | some m =>
    ((m.parameters.map metaKeyOf).filterMap id).filter fun k => !(trimChars k.toList).isEmpty

/-- A JS object as an association list. -/
abbrev Obj (α : Type) : Type := List (String × α)

def objHasKey {α : Type} (o : Obj α) (k : String) : Bool :=
  (o : List (String × α)).any fun kv => kv.1 == k

def objGet {α : Type} (o : Obj α) (k : String) : Option α :=
  ((o : List (String × α)).find? fun kv => kv.1 == k).map fun kv => kv.2

/-- `filterParamsForModel(rawParams, rawCi, modelMeta, rawSamples)` from
docs/app.js: when the metadata declares no keys the raw objects pass
through unchanged; otherwise the params are filtered to the allowed keys,
the CI entries are copied for exactly the surviving param keys that the CI
object possesses, and the samples are filtered to the allowed keys. -/
def filterParamsForModel {α β γ : Type} (rawParams : Obj α) (rawCi : Obj β)
    (meta : Option ModelMeta) (rawSamples : Obj γ) : Obj α × Obj β × Obj γ :=
  let allowed := getModelParamKeySet meta
  if allowed.isEmpty then (rawParams, rawCi, rawSamples)
  else
    ((rawParams : List (String × α)).filter fun kv => allowed.contains kv.1,
     (rawParams : List (String × α)).filterMap fun kv =>
       if allowed.contains kv.1 then (objGet rawCi kv.1).map fun v => (kv.1, v) else none,
     (rawSamples : List (String × γ)).filter fun kv => allowed.contains kv.1)

/-! ## The estimation core (`py/solver.py`), modelled from the specification

The frontend fetches `py/solver.py` at runtime; that file is not part of
the repository snapshot, so the core entry points `fit` and `fit_with_ci`
are modelled from the specification (sections 3, 4.3, 4.4, 6 and 7 of the
spec).  The numerical optimizer is injected as an explicit function (the
spec's "numerics-execution context"), and bootstrap randomness as an
explicit resampling plan, so the theorems can quantify over them. -/

/-- Modelled from the spec: the error taxonomy of section 7 for `InputError`
(`py/solver.py` is missing from the snapshot). -/
inductive InputFault where
  | emptyObservations
  | mismatchedLengths
  | nonPositiveTime
  | nonPositiveRadius
  | nonPositiveRate
deriving DecidableEq

/-- Modelled from the spec: errors raised by `fit`/`fit_with_ci`
(section 7; convergence failure is not an exception). -/
inductive FitError where
  | unknownModel
  | inputError (fault : InputFault)
deriving DecidableEq

/-- Modelled from the spec: the closed `ModelName` enumeration of
section 6, at minimum `theis` and `lagging`. -/
def supportedModels : List String := ["theis", "lagging"]

/-- Modelled from the spec: the immediate input validation of section 7 —
empty observation set, mismatched-length arrays, non-positive
time/radius/pumping-rate (`py/solver.py` is missing from the snapshot). -/
def validateInput (times draws : List ℚ) (r Q : ℚ) : Option InputFault :=
  if times.isEmpty then some .emptyObservations
  else if times.length ≠ draws.length then some .mismatchedLengths
  else if times.any (fun t => decide (t ≤ 0)) then some .nonPositiveTime
  else if r ≤ 0 then some .nonPositiveRadius
  else if Q ≤ 0 then some .nonPositiveRate
  else none

/-- Modelled from the spec: what one run of the point estimator returns
(section 4.3) — named parameters (NaN-able), RMSE, R², the fitted curve
over a dense grid, the model predictions at the observation times (used by
the residual bootstrap), and the `status` marker distinguishing a
converged fit from a failed one. -/
structure FitOutcome where
  params : Obj JsNum
  rmse : JsNum
  r2 : JsNum
  curve : List (ℚ × ℚ)
  predictedAtObs : List ℚ
  converged : Bool
deriving DecidableEq

/-- Modelled from the spec: the injected nonlinear least-squares optimizer
(sections 4.3 and 9): model name, observation times and drawdowns,
geometry, priors → outcome.  It totalises convergence failure (NaN
parameters and `converged := false`) instead of throwing. -/
abbrev Optimizer : Type :=
  String → List ℚ → List ℚ → ℚ → ℚ → Option (Obj ℚ) → FitOutcome

/-- Modelled from the spec: `fit(times, draws, model_name, r, Q, priors)`
(section 6; `py/solver.py` is missing from the snapshot).  Model-name
resolution happens first — a Fit Request's Model Variant is "a tagged
choice among a closed set" (section 3), so an unknown name fails with
`UnknownModelError` before the observation set is examined; then input
validation; only then is the optimizer consulted. -/
def fit (opt : Optimizer) (times draws : List ℚ) (model_name : String) (r Q : ℚ)
    (priors : Option (Obj ℚ)) : Except FitError FitOutcome :=
  if supportedModels.contains model_name then
    match validateInput times draws r Q with
    | some fault => .error (.inputError fault)
    | none => .ok (opt model_name times draws r Q priors)
  else .error .unknownModel

/-- Floor of a nonnegative rational as a natural number, via flooring
integer division (kernel-computable). -/
def qFloorNat (a : ℚ) : ℕ := (a.num.fdiv a.den).toNat

/-- Modelled from the spec: the empirical percentile with linear
interpolation between order statistics (section 4.4 step 4; the spec
names linear interpolation as the intended tie-break rule).  For a sorted
vector `ys` of length `n` and fraction `q`, the rank is `h = q·(n−1)`,
and the result interpolates between `ys[⌊h⌋]` and `ys[⌊h⌋+1]`. -/
def percentile (q : ℚ) (xs : List ℚ) : ℚ :=
  let ys := xs.insertionSort (· ≤ ·)
  match ys.length with
  | 0 => 0
  | n + 1 =>
    let h : ℚ := qMul q (Rat.divInt (n : ℤ) 1)
    let i := qFloorNat h
    let frac := qSub h (Rat.divInt (i : ℤ) 1)
    let a := ys.getD i 0
    let b := ys.getD (i + 1) a
    qAdd a (qMul frac (qSub b a))

/-- Modelled from the spec: the confidence interval reported for one
parameter — the `(1−conf)/2` and `1−(1−conf)/2` empirical percentiles of
its per-resample values (section 4.4 step 4). -/
def ciInterval (conf : ℚ) (xs : List ℚ) : ℚ × ℚ :=
  (percentile (qDiv (qSub 1 conf) 2) xs,
   percentile (qSub 1 (qDiv (qSub 1 conf) 2)) xs)

/-- Residuals: observed − fitted-at-observed-times (section 4.4 step 2). -/
def residualsOf (draws fitted : List ℚ) : List ℚ :=
  (draws.zip fitted).map fun p => qSub p.1 p.2

/-- Synthetic drawdowns of one resample: fitted-at-observed-times plus the
residuals drawn (with replacement) at the planned indices (step 3). -/
def synthDraws (fitted residuals : List ℚ) (idxs : List ℕ) : List ℚ :=
  (fitted.zip idxs).map fun fi => qAdd fi.1 (residuals.getD fi.2 0)

/-- A refitted parameter set counts as a successful resample only when
every parameter is finite; a NaN-valued resample is dropped, not a
crash (sections 4.3 and 4.4). -/
def allFiniteParams (ps : Obj JsNum) : Option (Obj ℚ) :=
  if ps.all (fun kv => kv.2.isFinite) then
    some (ps.filterMap fun kv =>
      match kv.2 with
      | .finite q => some (kv.1, q)
      | .nan => none)
  else none

/-- Modelled from the spec: the bootstrap loop of section 4.4 step 3 —
refit each of the `n_boot` planned resamples and keep the parameter sets
of the successful ones, in plan order. -/
def successfulResamples (opt : Optimizer) (plan : ℕ → List ℕ) (times draws : List ℚ)
    (model_name : String) (r Q : ℚ) (priors : Option (Obj ℚ)) (point : FitOutcome)
    (n_boot : ℕ) : List (Obj ℚ) :=
  let fitted := point.predictedAtObs
  let residuals := residualsOf draws fitted
  (List.range n_boot).filterMap fun i =>
    let o := opt model_name times (synthDraws fitted residuals (plan i)) r Q priors
    if o.converged then allFiniteParams o.params else none

/-- The per-parameter bootstrap sample vector: that parameter's value in
each successful resample that recorded it. -/
def sampleVec (succ : List (Obj ℚ)) (k : String) : List ℚ :=
  succ.filterMap fun ps => objGet ps k

/-- The raw bootstrap samples mapping: empty when no resample succeeded
(in particular when `n_boot = 0`), else one vector per parameter key. -/
def samplesMapping (paramKeys : List String) (succ : List (Obj ℚ)) : Obj (List ℚ) :=
  if succ.isEmpty then [] else paramKeys.map fun k => (k, sampleVec succ k)

/-- Modelled from the spec: the CI mapping — a parameter's CI is absent
when it has no samples or when fewer than 10% of the requested resamples
succeeded (section 4.4 step 4, `PartialBootstrapFailure` of section 7). -/
def ciMapping (conf : ℚ) (n_boot : ℕ) (paramKeys : List String) (succ : List (Obj ℚ)) :
    Obj (ℚ × ℚ) :=
  paramKeys.filterMap fun k =>
    let xs := sampleVec succ k
    if xs.isEmpty ∨ succ.length * 10 < n_boot then none
    else some (k, ciInterval conf xs)

/-- Modelled from the spec: the Fit Result of `fit_with_ci` (sections 3
and 6) — point estimates, metrics, fitted curve, per-parameter confidence
intervals, raw bootstrap samples, and the successful-vs-requested resample
counts for observability. -/
structure CiResult where
  params : Obj JsNum
  rmse : JsNum
  r2 : JsNum
  curve : List (ℚ × ℚ)
  ci : Obj (ℚ × ℚ)
  samples : Obj (List ℚ)
  nSuccess : ℕ
  nRequested : ℕ
deriving DecidableEq

/-- Modelled from the spec: `fit_with_ci(times, draws, model_name, r, Q,
priors, conf, n_boot)` (sections 4.4 and 6; `py/solver.py` is missing from
the snapshot).  Unknown model and invalid input fail fast; otherwise the
point estimator runs once and the residual bootstrap refits the planned
resamples. -/
def fit_with_ci (opt : Optimizer) (plan : ℕ → List ℕ) (times draws : List ℚ)
    (model_name : String) (r Q : ℚ) (priors : Option (Obj ℚ)) (conf : ℚ)
    (n_boot : ℕ) : Except FitError CiResult :=
  if supportedModels.contains model_name then
    match validateInput times draws r Q with
    | some fault => .error (.inputError fault)
    | none =>
      let point := opt model_name times draws r Q priors
      let succ := successfulResamples opt plan times draws model_name r Q priors point n_boot
      let keys := point.params.map fun kv => kv.1
      .ok ⟨point.params, point.rmse, point.r2, point.curve,
        ciMapping conf n_boot keys succ, samplesMapping keys succ, succ.length, n_boot⟩
  else .error .unknownModel

/-- Modelled from the spec: the only state surviving between invocations
is the caller-managed cache of the loaded numerics runtime (section 5). -/
structure RuntimeState where
  loaded : Bool
deriving DecidableEq

/-- Modelled from the spec: one caller-level invocation — ensure the
runtime is cached, then run the stateless `fit_with_ci` (sections 5
and 9). -/
def fitSession (opt : Optimizer) (plan : ℕ → List ℕ) (_st : RuntimeState)
    (times draws : List ℚ) (model_name : String) (r Q : ℚ) (priors : Option (Obj ℚ))
    (conf : ℚ) (n_boot : ℕ) : Except FitError CiResult × RuntimeState :=
  (fit_with_ci opt plan times draws model_name r Q priors conf n_boot, ⟨true⟩)

/-! ## The Theis drawdown model (section 4.1), over the reals -/

open Real MeasureTheory Set Filter Topology

/-- Modelled from the spec: the Theis well function — the exponential
integral `W(u) = ∫ x in (u, ∞), exp (−x) / x` (section 4.1; `py/solver.py`
is missing from the snapshot, and the spec characterises the kernel as the
exponential integral independently of the numerical approximation used to
evaluate it). -/
noncomputable def wellFunction (u : ℝ) : ℝ := ∫ x in Ioi u, exp (-x) / x

/-- Modelled from the spec: `theis_drawdown` at a single time,
`s(t) = Q/(4πT) · W(r²S/(4Tt))` (sections 4.1 and 6). -/
noncomputable def theis_drawdown (T S r Q t : ℝ) : ℝ :=
  Q / (4 * π * T) * wellFunction (r ^ 2 * S / (4 * T * t))

theorem qAdd_eq (a b : ℚ) : qAdd a b = a + b := by
  conv_rhs => rw [← Rat.num_divInt_den a, ← Rat.num_divInt_den b]
  rw [Rat.divInt_add_divInt _ _ (Int.ofNat_ne_zero.mpr a.den_nz) (Int.ofNat_ne_zero.mpr b.den_nz)]
  rfl

theorem qSub_eq (a b : ℚ) : qSub a b = a - b := by
  conv_rhs => rw [← Rat.num_divInt_den a, ← Rat.num_divInt_den b]
  rw [Rat.divInt_sub_divInt _ _ (Int.ofNat_ne_zero.mpr a.den_nz) (Int.ofNat_ne_zero.mpr b.den_nz)]
  rfl

theorem qMul_eq (a b : ℚ) : qMul a b = a * b := by
  conv_rhs => rw [← Rat.num_divInt_den a, ← Rat.num_divInt_den b]
  rw [Rat.divInt_mul_divInt']
  rfl

theorem qDiv_eq (a b : ℚ) : qDiv a b = a / b := by
  conv_rhs => rw [← Rat.num_divInt_den a, ← Rat.num_divInt_den b]
  rw [div_eq_mul_inv, Rat.inv_divInt', Rat.divInt_mul_divInt']
  rfl

/-! ### Shape invariants of the row loop -/

theorem latchR_data (row : List (List Char)) (idxR : Option ℕ) (st : RowState) :
    (latchR row idxR st).data = st.data ∧ (latchR row idxR st).times = st.times ∧
      (latchR row idxR st).draws = st.draws := by
  refine ⟨?_, ?_, ?_⟩ <;>
    (cases idxR with
     | none => rfl
     | some j => simp only [latchR]; split <;> rfl)

theorem latchQ_data (row : List (List Char)) (idxQ : Option ℕ) (st : RowState) :
    (latchQ row idxQ st).data = st.data ∧ (latchQ row idxQ st).times = st.times ∧
      (latchQ row idxQ st).draws = st.draws := by
  refine ⟨?_, ?_, ?_⟩ <;>
    (cases idxQ with
     | none => rfl
     | some j => simp only [latchQ]; split <;> rfl)

theorem processRow_cases (iT iS : ℕ) (iR iQ : Option ℕ) (st : RowState) (line : List Char) :
    processRow iT iS iR iQ st line = st ∨
      ∃ row t s, t.isFinite = true ∧ s.isFinite = true ∧
        processRow iT iS iR iQ st line = latchQ row iQ (latchR row iR (pushObs st t s)) := by
  unfold processRow processRowOn
  split
  · exact .inl rfl
  · split
    · rename_i hfin
      rw [Bool.and_eq_true] at hfin
      exact .inr ⟨_, _, _, hfin.1, hfin.2, rfl⟩
    · exact .inl rfl

theorem processRow_good (iT iS : ℕ) (iR iQ : Option ℕ) (st : RowState) (line : List Char)
    (h : goodState st) : goodState (processRow iT iS iR iQ st line) := by
  rcases processRow_cases iT iS iR iQ st line with heq | ⟨row, t, s, ht, hs, heq⟩
  · rw [heq]; exact h
  · rw [heq]
    obtain ⟨hq1, hq2, hq3⟩ := latchQ_data row iQ (latchR row iR (pushObs st t s))
    obtain ⟨hr1, hr2, hr3⟩ := latchR_data row iR (pushObs st t s)
    constructor
    · rw [hq2, hq3, hr2, hr3]
      simpa [pushObs] using h.1
    constructor
    · rw [hq2, hr2]
      intro x hx
      simp only [pushObs, List.mem_append, List.mem_singleton] at hx
      rcases hx with hx | rfl
      · exact h.2.1 x hx
      · exact ht
    · rw [hq3, hr3]
      intro x hx
      simp only [pushObs, List.mem_append, List.mem_singleton] at hx
      rcases hx with hx | rfl
      · exact h.2.2 x hx
      · exact hs

theorem foldl_processRow_good (iT iS : ℕ) (iR iQ : Option ℕ) (lines : List (List Char))
    (st : RowState) (h : goodState st) :
    goodState (lines.foldl (processRow iT iS iR iQ) st) := by
  induction lines generalizing st with
  | nil => exact h
  | cons l ls ih => exact ih _ (processRow_good iT iS iR iQ st l h)

/-- C9.  For every input text and every pair of default values,
`parseCsvOrText` returns `times` and `draws` arrays of equal length whose
elements all pass `Number.isFinite`: each data row either contributes
exactly one finite entry to each of the two arrays, or is skipped
entirely. -/
theorem parseCsvOrText_times_draws_aligned (txt : String) (dR dQ : JsNum)
    (res : ParseResult) (h : parseCsvOrText txt dR dQ = .ok res) :
    res.times.length = res.draws.length ∧
      (∀ x ∈ res.times, x.isFinite = true) ∧ (∀ x ∈ res.draws, x.isFinite = true) := by
  unfold parseCsvOrText at h
  split at h
  · cases h
    refine ⟨rfl, ?_, ?_⟩ <;> intro x hx <;> cases hx
  · rename_i headerLine dataLines hlines
    unfold parseBody at h
    split at h
    · rename_i iT iS hT hS
      simp only [Except.ok.injEq] at h
      subst h
      have h0 : goodState
          (⟨[], [], [],
            if dR.isFinite then dR else JsNum.nan,
            if dQ.isFinite then dQ else JsNum.nan⟩ : RowState) := by
        refine ⟨rfl, ?_, ?_⟩ <;> intro x hx <;> cases hx
      have hg := foldl_processRow_good iT iS
        (jsFindIndex testR (List.map trimChars (splitOnChar ',' headerLine)))
        (jsFindIndex testQ (List.map trimChars (splitOnChar ',' headerLine)))
        dataLines _ h0
      exact ⟨hg.1, hg.2.1, hg.2.2⟩
    · cases h

/-- Closed-form instance discharging the hypothesis of
`parseCsvOrText_times_draws_aligned` on a concrete CSV. -/
theorem parseCsvOrText_times_draws_aligned_witness :
    ∃ res, parseCsvOrText "time_min,drawdown_m\n1,0.25\n2,0.5" JsNum.nan JsNum.nan =
        .ok res ∧
      (res.times.length = res.draws.length ∧
        (∀ x ∈ res.times, x.isFinite = true) ∧ (∀ x ∈ res.draws, x.isFinite = true)) :=
  ⟨_, rfl, parseCsvOrText_times_draws_aligned "time_min,drawdown_m\n1,0.25\n2,0.5"
    JsNum.nan JsNum.nan _ rfl⟩

theorem pushObs_r (st : RowState) (t s : JsNum) : (pushObs st t s).r = st.r := rfl

theorem latchQ_r (row : List (List Char)) (iQ : Option ℕ) (st : RowState) :
    (latchQ row iQ st).r = st.r := by
  cases iQ with
  | none => rfl
  | some j => simp only [latchQ]; split <;> rfl

theorem processRow_r (iT iS : ℕ) (iR iQ : Option ℕ) (st : RowState) (line : List Char) :
    (processRow iT iS iR iQ st line).r =
      radiusStep iT iS iR st.r ((splitOnChar ',' line).map trimChars) := by
  unfold processRow processRowOn radiusStep
  split
  · rfl
  · split
    · rw [latchQ_r]
      cases iR with
      | none => rfl
      | some j =>
        simp only [latchR, pushObs_r]
        split <;> rfl
    · rfl

theorem foldl_processRow_r (iT iS : ℕ) (iR iQ : Option ℕ) (lines : List (List Char))
    (st : RowState) :
    (lines.foldl (processRow iT iS iR iQ) st).r = radiusScan iT iS iR lines st.r := by
  induction lines generalizing st with
  | nil => rfl
  | cons l ls ih =>
    show (ls.foldl _ (processRow iT iS iR iQ st l)).r = _
    rw [ih, processRow_r]
    rfl

theorem jsFindIndex_of_mem (p : List Char → Bool) (l : List (List Char)) (j : ℕ)
    (h : List Char) (hj : l.get? j = some h) (hp : p h = true) :
    ∃ i, jsFindIndex p l = some i ∧ i ≤ j := by
  induction l generalizing j with
  | nil => cases hj
  | cons a t ih =>
    by_cases ha : p a = true
    · exact ⟨0, by simp [jsFindIndex, ha], Nat.zero_le j⟩
    · cases j with
      | zero =>
        rw [List.get?_cons_zero, Option.some.injEq] at hj
        subst hj
        exact absurd hp ha
      | succ j =>
        rw [List.get?_cons_succ] at hj
        obtain ⟨i, hi, hij⟩ := ih j hj
        refine ⟨i + 1, ?_, Nat.succ_le_succ hij⟩
        simp [jsFindIndex, ha, hi]

/-- C10.  The radius column is located with `/r(_m)?/i`, which matches any
header containing the letter `r`.  Hence for every CSV whose header row
places a column whose name contains `r` (such as `drawdown_m`) strictly
before the `r_m` column, and whose caller-supplied default radius is not
finite, the column index the parser reads the radius from is that of the
earlier matching column — not the `r_m` column — and the returned radius is
the first finite value latched from that column over the kept rows
(falling back to the default when none is finite). -/
theorem parseCsvOrText_radius_from_earlier_column (txt : String) (dR dQ : JsNum)
    (res : ParseResult) (j k : ℕ) (hcol : List Char)
    (hok : parseCsvOrText txt dR dQ = .ok res)
    (hdR : dR.isFinite = false)
    (hj : (headersOf txt).get? j = some hcol)
    (hjr : testR hcol = true)
    (_hk : (headersOf txt).get? k = some "r_m".toList)
    (hjk : j < k) :
    ∃ jR iT iS,
      jsFindIndex testR (headersOf txt) = some jR ∧ jR < k ∧
        jsFindIndex (testCI "time_min") (headersOf txt) = some iT ∧
        jsFindIndex (testCI "drawdown_m") (headersOf txt) = some iS ∧
        res.rOut =
          (let sc := radiusScan iT iS (some jR) (dataLinesOf txt) JsNum.nan
           if sc.isFinite then sc else dR) := by
  obtain ⟨jR, hjR, hjRj⟩ := jsFindIndex_of_mem testR (headersOf txt) j hcol hj hjr
  unfold parseCsvOrText at hok
  split at hok
  · rename_i hlines
    rw [headersOf, hlines] at hj
    cases hj
  · rename_i headerLine dataLines hlines
    have hheaders : headersOf txt = (splitOnChar ',' headerLine).map trimChars := by
      rw [headersOf, hlines]
    have hdata : dataLinesOf txt = dataLines := by
      rw [dataLinesOf, hlines]
      rfl
    rw [hheaders] at hjR
    unfold parseBody at hok
    split at hok
    · rename_i iT iS hT hS
      simp only [Except.ok.injEq] at hok
      subst hok
      refine ⟨jR, iT, iS, by rw [hheaders]; exact hjR, Nat.lt_of_le_of_lt hjRj hjk,
        by rw [hheaders]; exact hT, by rw [hheaders]; exact hS, ?_⟩
      show (if (finalState iT iS _ _ _ dR dQ).r.isFinite then _ else dR) = _
      rw [finalState, foldl_processRow_r, hjR, hdata]
      simp only [hdR, Bool.false_eq_true, if_false]
    · cases hok

/-- Closed-form instance of `parseCsvOrText_radius_from_earlier_column`: in
`time_min,drawdown_m,r_m`, the header `drawdown_m` (index 1) contains `r`
and precedes `r_m` (index 2), so with a non-finite default radius the
parser returns the first drawdown value (0.25), not 30 from the `r_m`
column. -/
theorem parseCsvOrText_radius_from_earlier_column_witness :
    ∃ res : ParseResult,
      parseCsvOrText "time_min,drawdown_m,r_m\n1,0.25,30\n2,0.5,30" JsNum.nan JsNum.nan =
          .ok res ∧
        (∃ jR iT iS,
          jsFindIndex testR (headersOf "time_min,drawdown_m,r_m\n1,0.25,30\n2,0.5,30") =
              some jR ∧ jR < 2 ∧
            jsFindIndex (testCI "time_min")
                (headersOf "time_min,drawdown_m,r_m\n1,0.25,30\n2,0.5,30") = some iT ∧
            jsFindIndex (testCI "drawdown_m")
                (headersOf "time_min,drawdown_m,r_m\n1,0.25,30\n2,0.5,30") = some iS ∧
            res.rOut =
              (let sc := radiusScan iT iS (some jR)
                (dataLinesOf "time_min,drawdown_m,r_m\n1,0.25,30\n2,0.5,30") JsNum.nan
               if sc.isFinite then sc else JsNum.nan)) ∧
        res.rOut = JsNum.finite (Rat.divInt 1 4) :=
  ⟨_, rfl,
    parseCsvOrText_radius_from_earlier_column
      "time_min,drawdown_m,r_m\n1,0.25,30\n2,0.5,30" JsNum.nan JsNum.nan _ 1 2
      "drawdown_m".toList rfl rfl rfl rfl rfl (by decide),
    rfl⟩

/-- C3, counterexample.  When the chosen variant's metadata declares no
parameter keys (`allowed.size` is zero — e.g. the metadata failed to load
or lists no parameters), `filterParamsForModel` returns the raw objects
unchanged, so a leftover key from another variant (here `tau_q`) survives
into the assembled result even though the variant declares no such key. -/
theorem filterParamsForModel_passthrough_counterexample :
    getModelParamKeySet (some ⟨[]⟩) = [] ∧
      (filterParamsForModel [("tau_q", (1 : ℚ))] ([] : Obj ℚ) (some ⟨[]⟩)
          ([] : Obj (List ℚ))).1 = [("tau_q", (1 : ℚ))] :=
  ⟨rfl, rfl⟩

/-- C3, amended.  Whenever the chosen variant's metadata declares at least
one parameter key, every key appearing in the filtered params, CI and
samples mappings is one the metadata declares (the mappings contain at
most the declared keys — declared keys absent from the raw result are not
invented); when the metadata declares no keys the raw mappings pass
through unchanged. -/
theorem filterParamsForModel_only_declared_keys {α β γ : Type} (p : Obj α) (c : Obj β)
    (s : Obj γ) (meta : Option ModelMeta) (h : getModelParamKeySet meta ≠ []) :
    (∀ kv ∈ (filterParamsForModel p c meta s).1, kv.1 ∈ getModelParamKeySet meta) ∧
      (∀ kv ∈ (filterParamsForModel p c meta s).2.1, kv.1 ∈ getModelParamKeySet meta) ∧
      (∀ kv ∈ (filterParamsForModel p c meta s).2.2, kv.1 ∈ getModelParamKeySet meta) := by
  unfold filterParamsForModel
  rw [if_neg (by simpa using h)]
  refine ⟨?_, ?_, ?_⟩
  · intro kv hkv
    rw [List.mem_filter] at hkv
    exact List.elem_iff.mp hkv.2
  · intro kv hkv
    rw [List.mem_filterMap] at hkv
    obtain ⟨a, _, ha⟩ := hkv
    by_cases hc : (getModelParamKeySet meta).contains a.1 = true
    · rw [if_pos hc, Option.map_eq_some'] at ha
      obtain ⟨v, _, rfl⟩ := ha
      exact List.elem_iff.mp hc
    · rw [if_neg hc] at ha
      cases ha
  · intro kv hkv
    rw [List.mem_filter] at hkv
    exact List.elem_iff.mp hkv.2

/-- Closed-form instance discharging the hypothesis of
`filterParamsForModel_only_declared_keys` on concrete data: the `theis`
variant declares `T` and `S`; a leftover `tau_q` entry is filtered out of
params, CI and samples alike. -/
theorem filterParamsForModel_only_declared_keys_witness :
    getModelParamKeySet (some ⟨[⟨some "T", none⟩, ⟨some "S", none⟩]⟩) ≠ [] ∧
      ((∀ kv ∈ (filterParamsForModel
            [("T", (1 : ℚ)), ("tau_q", (2 : ℚ))] ([("T", (3 : ℚ))] : Obj ℚ)
            (some ⟨[⟨some "T", none⟩, ⟨some "S", none⟩]⟩)
            ([("tau_q", (4 : ℚ))] : Obj ℚ)).1,
          kv.1 ∈ getModelParamKeySet (some ⟨[⟨some "T", none⟩, ⟨some "S", none⟩]⟩)) ∧
        (∀ kv ∈ (filterParamsForModel
            [("T", (1 : ℚ)), ("tau_q", (2 : ℚ))] ([("T", (3 : ℚ))] : Obj ℚ)
            (some ⟨[⟨some "T", none⟩, ⟨some "S", none⟩]⟩)
            ([("tau_q", (4 : ℚ))] : Obj ℚ)).2.1,
          kv.1 ∈ getModelParamKeySet (some ⟨[⟨some "T", none⟩, ⟨some "S", none⟩]⟩)) ∧
        (∀ kv ∈ (filterParamsForModel
            [("T", (1 : ℚ)), ("tau_q", (2 : ℚ))] ([("T", (3 : ℚ))] : Obj ℚ)
            (some ⟨[⟨some "T", none⟩, ⟨some "S", none⟩]⟩)
            ([("tau_q", (4 : ℚ))] : Obj ℚ)).2.2,
          kv.1 ∈ getModelParamKeySet (some ⟨[⟨some "T", none⟩, ⟨some "S", none⟩]⟩))) :=
  ⟨by decide,
    filterParamsForModel_only_declared_keys _ _ _ _ (by decide)⟩

/-! ## Claims about the core entry points -/

theorem validateInput_none_iff (times draws : List ℚ) (r Q : ℚ)
    (h : validateInput times draws r Q = none) :
    times ≠ [] ∧ times.length = draws.length ∧ (∀ t ∈ times, 0 < t) ∧ 0 < r ∧ 0 < Q := by
  unfold validateInput at h
  split_ifs at h with h1 h2 h3 h4 h5
  refine ⟨?_, not_ne_iff.mp h2, ?_, not_le.mp h4, not_le.mp h5⟩
  · intro he
    exact h1 (by simp [he])
  · intro t ht
    by_contra hle
    exact h3 (List.any_eq_true.mpr ⟨t, ht, decide_eq_true (not_lt.mp hle)⟩)

/-- C1.  For every fit request whose model name is outside the closed
enumeration `{theis, lagging}`, both `fit` and `fit_with_ci` fail with the
explicit `UnknownModelError` — and they do so identically for every
optimizer and every resampling plan, so no partially-populated result is
ever produced and the model name is never silently replaced by a
default. -/
theorem unknown_model_fails (times draws : List ℚ) (model_name : String) (r Q : ℚ)
    (priors : Option (Obj ℚ)) (conf : ℚ) (n_boot : ℕ)
    (h : supportedModels.contains model_name = false) :
    ∀ (opt : Optimizer) (plan : ℕ → List ℕ),
      fit opt times draws model_name r Q priors = .error .unknownModel ∧
        fit_with_ci opt plan times draws model_name r Q priors conf n_boot =
          .error .unknownModel := by
  intro opt plan
  constructor
  · unfold fit
    rw [if_neg (by simpa using h)]
  · unfold fit_with_ci
    rw [if_neg (by simpa using h)]

/-- Closed-form instance discharging the hypothesis of
`unknown_model_fails` at the spec's own example name `"bogus"`. -/
theorem unknown_model_fails_witness :
    supportedModels.contains "bogus" = false ∧
      (fit (fun _ _ _ _ _ _ => ⟨[], .nan, .nan, [], [], false⟩) [1] [0] "bogus" 1 1 none =
          .error .unknownModel ∧
        fit_with_ci (fun _ _ _ _ _ _ => ⟨[], .nan, .nan, [], [], false⟩) (fun _ => [])
            [1] [0] "bogus" 1 1 none (Rat.divInt 19 20) 100 = .error .unknownModel) :=
  ⟨by decide, unknown_model_fails [1] [0] "bogus" 1 1 none (Rat.divInt 19 20) 100 (by decide) _ _⟩

/-- C6.  With a recognised model name, every fit request with an empty
observation set, mismatched-length arrays, or a non-positive time, radius
or pumping rate makes `fit` and `fit_with_ci` fail immediately with an
`InputError`; the failure is the same for every optimizer and every
resampling plan, so no optimizer call and no bootstrap resample is ever
attempted. -/
theorem invalid_input_fails (times draws : List ℚ) (model_name : String) (r Q : ℚ)
    (priors : Option (Obj ℚ)) (conf : ℚ) (n_boot : ℕ)
    (hm : supportedModels.contains model_name = true)
    (hbad : times = [] ∨ times.length ≠ draws.length ∨ (∃ t ∈ times, t ≤ 0) ∨ r ≤ 0 ∨ Q ≤ 0) :
    ∃ fault, ∀ (opt : Optimizer) (plan : ℕ → List ℕ),
      fit opt times draws model_name r Q priors = .error (.inputError fault) ∧
        fit_with_ci opt plan times draws model_name r Q priors conf n_boot =
          .error (.inputError fault) := by
  cases hv : validateInput times draws r Q with
  | none =>
    obtain ⟨h1, h2, h3, h4, h5⟩ := validateInput_none_iff times draws r Q hv
    rcases hbad with hb | hb | ⟨t, ht, hb⟩ | hb | hb
    · exact absurd hb h1
    · exact absurd h2 hb
    · exact absurd hb (not_le.mpr (h3 t ht))
    · exact absurd hb (not_le.mpr h4)
    · exact absurd hb (not_le.mpr h5)
  | some fault =>
    refine ⟨fault, fun opt plan => ⟨?_, ?_⟩⟩
    · unfold fit
      rw [if_pos (by simpa using hm), hv]
    · unfold fit_with_ci
      rw [if_pos (by simpa using hm), hv]

/-- Closed-form instance discharging the hypotheses of
`invalid_input_fails` at an empty observation set. -/
theorem invalid_input_fails_witness :
    supportedModels.contains "theis" = true ∧
      ∃ fault, ∀ (opt : Optimizer) (plan : ℕ → List ℕ),
        fit opt [] [] "theis" 1 1 none = .error (.inputError fault) ∧
          fit_with_ci opt plan [] [] "theis" 1 1 none (Rat.divInt 19 20) 100 =
            .error (.inputError fault) :=
  ⟨by decide, invalid_input_fails [] [] "theis" 1 1 none (Rat.divInt 19 20) 100
    (by decide) (Or.inl rfl)⟩

/-- C7.  A dataset with a single valid observation is not rejected as an
`InputError`: with positive time, radius and pumping rate and a recognised
model, `fit` returns a result for every optimizer (possibly a degenerate
all-NaN one), and `fit_with_ci` likewise completes and returns a
result. -/
theorem single_observation_accepted (t s r Q : ℚ) (model_name : String)
    (priors : Option (Obj ℚ)) (conf : ℚ) (n_boot : ℕ)
    (ht : 0 < t) (hr : 0 < r) (hQ : 0 < Q)
    (hm : supportedModels.contains model_name = true) :
    ∀ (opt : Optimizer) (plan : ℕ → List ℕ),
      (∃ o, fit opt [t] [s] model_name r Q priors = .ok o) ∧
        ∃ res, fit_with_ci opt plan [t] [s] model_name r Q priors conf n_boot = .ok res := by
  have hv : validateInput [t] [s] r Q = none := by
    unfold validateInput
    rw [if_neg (by simp), if_neg (by simp),
      if_neg (by simp [decide_eq_false (not_le.mpr ht)]),
      if_neg (not_le.mpr hr), if_neg (not_le.mpr hQ)]
  intro opt plan
  constructor
  · unfold fit
    rw [if_pos (by simpa using hm), hv]
    exact ⟨_, rfl⟩
  · unfold fit_with_ci
    rw [if_pos (by simpa using hm), hv]
    exact ⟨_, rfl⟩

/-- Closed-form instance discharging the hypotheses of
`single_observation_accepted` at a concrete single-point dataset. -/
theorem single_observation_accepted_witness :
    (∃ o, fit (fun _ _ _ _ _ _ => ⟨[("T", JsNum.nan)], .nan, .nan, [], [], false⟩)
        [1] [0] "theis" 1 1 none = .ok o) ∧
      ∃ res, fit_with_ci (fun _ _ _ _ _ _ => ⟨[("T", JsNum.nan)], .nan, .nan, [], [], false⟩)
          (fun _ => []) [1] [0] "theis" 1 1 none (Rat.divInt 19 20) 100 = .ok res :=
  single_observation_accepted 1 0 1 1 "theis" none (Rat.divInt 19 20) 100
    (by decide) (by decide) (by decide) (by decide) _ _

/-- C2.  `n_boot = 0` is legal, not an error: for every valid fit request
`fit_with_ci` returns `.ok` with an empty confidence-interval mapping and
an empty samples mapping, and with point parameters, metrics and fitted
curve identical to those returned by calling `fit` directly on the same
inputs. -/
theorem n_boot_zero_skips_bootstrap (opt : Optimizer) (plan : ℕ → List ℕ)
    (times draws : List ℚ) (model_name : String) (r Q : ℚ) (priors : Option (Obj ℚ))
    (conf : ℚ)
    (hm : supportedModels.contains model_name = true)
    (hv : validateInput times draws r Q = none) :
    ∃ o, fit opt times draws model_name r Q priors = .ok o ∧
      fit_with_ci opt plan times draws model_name r Q priors conf 0 =
        .ok ⟨o.params, o.rmse, o.r2, o.curve, [], [], 0, 0⟩ := by
  refine ⟨opt model_name times draws r Q priors, ?_, ?_⟩
  · unfold fit
    rw [if_pos (by simpa using hm), hv]
  · unfold fit_with_ci
    rw [if_pos (by simpa using hm), hv]
    have hci : ciMapping conf 0
        (List.map (fun kv => kv.1) (opt model_name times draws r Q priors).params)
        ([] : List (Obj ℚ)) = [] :=
      List.filterMap_eq_nil_iff.mpr fun k _ => rfl
    show Except.ok
        (⟨(opt model_name times draws r Q priors).params,
          (opt model_name times draws r Q priors).rmse,
          (opt model_name times draws r Q priors).r2,
          (opt model_name times draws r Q priors).curve,
          ciMapping conf 0
            (List.map (fun kv => kv.1) (opt model_name times draws r Q priors).params)
            ([] : List (Obj ℚ)),
          samplesMapping
            (List.map (fun kv => kv.1) (opt model_name times draws r Q priors).params)
            ([] : List (Obj ℚ)),
          ([] : List (Obj ℚ)).length, 0⟩ : CiResult) = _
    rw [hci]
    rfl

/-- Closed-form instance discharging the hypotheses of
`n_boot_zero_skips_bootstrap` on a concrete valid request. -/
theorem n_boot_zero_skips_bootstrap_witness :
    ∃ o, fit (fun _ _ _ _ _ _ => ⟨[("T", JsNum.finite 1)], .finite 0, .finite 1, [], [0], true⟩)
        [1] [0] "theis" 1 1 none = .ok o ∧
      fit_with_ci (fun _ _ _ _ _ _ => ⟨[("T", JsNum.finite 1)], .finite 0, .finite 1, [], [0], true⟩)
          (fun _ => [0]) [1] [0] "theis" 1 1 none (Rat.divInt 19 20) 0 =
        .ok ⟨o.params, o.rmse, o.r2, o.curve, [], [], 0, 0⟩ :=
  n_boot_zero_skips_bootstrap _ _ [1] [0] "theis" 1 1 none (Rat.divInt 19 20)
    (by decide) (by decide)

/-- C8.  Determinism and statelessness: the result of a `fitSession`
invocation does not depend on the incoming runtime-cache state (the only
state the spec allows to persist between calls), and two successive calls
with identical inputs return identical results. -/
theorem fit_idempotent_stateless (opt : Optimizer) (plan : ℕ → List ℕ)
    (times draws : List ℚ) (model_name : String) (r Q : ℚ) (priors : Option (Obj ℚ))
    (conf : ℚ) (n_boot : ℕ) (st st' : RuntimeState) :
    (fitSession opt plan st times draws model_name r Q priors conf n_boot).1 =
        (fitSession opt plan st' times draws model_name r Q priors conf n_boot).1 ∧
      (fitSession opt plan
          (fitSession opt plan st times draws model_name r Q priors conf n_boot).2
          times draws model_name r Q priors conf n_boot).1 =
        (fitSession opt plan st times draws model_name r Q priors conf n_boot).1 :=
  ⟨rfl, rfl⟩

/-! ## The bootstrap percentile law -/

theorem percentile_perm (q : ℚ) (xs ys : List ℚ) (h : ys.Perm xs) :
    percentile q ys = percentile q xs := by
  unfold percentile
  have hsort : ys.insertionSort (· ≤ ·) = xs.insertionSort (· ≤ ·) :=
    List.eq_of_perm_of_sorted
      ((List.perm_insertionSort _ ys).trans (h.trans (List.perm_insertionSort _ xs).symm))
      (List.sorted_insertionSort _ ys) (List.sorted_insertionSort _ xs)
  rw [hsort]

theorem ciInterval_std (conf : ℚ) (xs : List ℚ) :
    ciInterval conf xs =
      (percentile ((1 - conf) / 2) xs, percentile (1 - (1 - conf) / 2) xs) := by
  unfold ciInterval
  rw [qSub_eq, qDiv_eq, qSub_eq]

theorem ciMapping_mem (conf : ℚ) (n_boot : ℕ) (keys : List String) (succ : List (Obj ℚ))
    (k : String) (iv : ℚ × ℚ) (h : (k, iv) ∈ ciMapping conf n_boot keys succ) :
    (k, sampleVec succ k) ∈ samplesMapping keys succ ∧ sampleVec succ k ≠ [] ∧
      iv = ciInterval conf (sampleVec succ k) := by
  unfold ciMapping at h
  rw [List.mem_filterMap] at h
  obtain ⟨k', hk', hsome⟩ := h
  dsimp only at hsome
  split at hsome
  · cases hsome
  · rename_i hcond
    rw [Option.some.injEq, Prod.mk.injEq] at hsome
    obtain ⟨rfl, rfl⟩ := hsome
    push_neg at hcond
    have hne : sampleVec succ k' ≠ [] := by
      intro he
      exact hcond.1 (by rw [he]; rfl)
    have hsne : succ ≠ [] := by
      intro he
      exact hne (by rw [he]; rfl)
    refine ⟨?_, hne, rfl⟩
    unfold samplesMapping
    rw [if_neg (by simpa using hsne)]
    exact List.mem_map.mpr ⟨k', hk', rfl⟩

/-- C4.  Every confidence interval reported by `fit_with_ci` is exactly the
pair of `(1−conf)/2` and `1−(1−conf)/2` empirical percentiles (with linear
interpolation between order statistics) of that parameter's recorded
per-resample sample vector, and the interval is unchanged under any
permutation of those samples — so it is independent of the order in which
resamples complete. -/
theorem ci_is_percentiles_order_independent (opt : Optimizer) (plan : ℕ → List ℕ)
    (times draws : List ℚ) (model_name : String) (r Q : ℚ) (priors : Option (Obj ℚ))
    (conf : ℚ) (n_boot : ℕ) (res : CiResult) (k : String) (iv : ℚ × ℚ)
    (_hconf : 0 < conf ∧ conf < 1)
    (hok : fit_with_ci opt plan times draws model_name r Q priors conf n_boot = .ok res)
    (hmem : (k, iv) ∈ res.ci) :
    ∃ xs, (k, xs) ∈ res.samples ∧ xs ≠ [] ∧
      iv = (percentile ((1 - conf) / 2) xs, percentile (1 - (1 - conf) / 2) xs) ∧
      ∀ ys, ys.Perm xs →
        (percentile ((1 - conf) / 2) ys, percentile (1 - (1 - conf) / 2) ys) = iv := by
  unfold fit_with_ci at hok
  split at hok
  · split at hok
    · cases hok
    · simp only [Except.ok.injEq] at hok
      subst hok
      dsimp only at hmem
      obtain ⟨hs, hne, hiv⟩ := ciMapping_mem _ _ _ _ _ _ hmem
      refine ⟨_, hs, hne, ?_, ?_⟩
      · rw [hiv, ciInterval_std]
      · intro ys hperm
        rw [percentile_perm _ _ _ hperm, percentile_perm _ _ _ hperm, hiv, ciInterval_std]
  · cases hok

/-- Closed-form instance discharging the hypotheses of
`ci_is_percentiles_order_independent` on a one-resample bootstrap whose
only parameter `T` has sample vector `[1]` and reported CI `(1, 1)`. -/
theorem ci_is_percentiles_order_independent_witness :
    ∃ res : CiResult,
      fit_with_ci
          (fun _ _ _ _ _ _ => ⟨[("T", JsNum.finite 1)], .finite 0, .finite 1, [], [0], true⟩)
          (fun _ => [0]) [1] [0] "theis" 1 1 none (Rat.divInt 19 20) 1 = .ok res ∧
        ∃ xs, ("T", xs) ∈ res.samples ∧ xs ≠ [] ∧
          ((1 : ℚ), (1 : ℚ)) =
              (percentile ((1 - Rat.divInt 19 20) / 2) xs,
               percentile (1 - (1 - Rat.divInt 19 20) / 2) xs) ∧
          ∀ ys, ys.Perm xs →
            (percentile ((1 - Rat.divInt 19 20) / 2) ys,
             percentile (1 - (1 - Rat.divInt 19 20) / 2) ys) = ((1 : ℚ), (1 : ℚ)) := by
  refine ⟨_, rfl, ?_⟩
  exact ci_is_percentiles_order_independent
    (fun _ _ _ _ _ _ => ⟨[("T", JsNum.finite 1)], .finite 0, .finite 1, [], [0], true⟩)
    (fun _ => [0]) [1] [0] "theis" 1 1 none (Rat.divInt 19 20) 1 _ "T" ((1 : ℚ), (1 : ℚ))
    ⟨by decide, by decide⟩ rfl (by decide)

theorem integrableOn_wellKernel (u : ℝ) (hu : 0 < u) :
    IntegrableOn (fun x => exp (-x) / x) (Ioi u) := by
  have hg : IntegrableOn (fun x => (1 / u) * exp (-1 * x)) (Ioi u) :=
    (exp_neg_integrableOn_Ioi u one_pos).const_mul (1 / u)
  refine MeasureTheory.Integrable.mono hg ?_ ?_
  · refine ContinuousOn.aestronglyMeasurable ?_ measurableSet_Ioi
    refine ContinuousOn.div ?_ continuousOn_id ?_
    · exact (continuous_exp.comp continuous_neg).continuousOn
    · intro x hx
      exact ne_of_gt (lt_trans hu hx)
  · rw [ae_restrict_iff' measurableSet_Ioi]
    refine Eventually.of_forall fun x hx => ?_
    have hx0 : 0 < x := lt_trans hu hx
    rw [Real.norm_eq_abs, Real.norm_eq_abs,
      abs_of_nonneg (div_nonneg (exp_pos _).le hx0.le),
      abs_of_nonneg (mul_nonneg (by positivity) (exp_pos _).le)]
    have h1 : exp (-x) / x ≤ exp (-x) / u :=
      div_le_div_of_nonneg_left (exp_pos _).le hu (le_of_lt hx)
    have h2 : exp (-x) / u = 1 / u * exp (-1 * x) := by
      rw [neg_one_mul]
      ring
    rw [h2] at h1
    exact h1

theorem wellFunction_nonneg (u : ℝ) (hu : 0 < u) : 0 ≤ wellFunction u :=
  setIntegral_nonneg measurableSet_Ioi fun _x hx =>
    div_nonneg (exp_pos _).le (le_of_lt (lt_trans hu hx))

theorem wellFunction_antitone {a b : ℝ} (ha : 0 < a) (hab : a ≤ b) :
    wellFunction b ≤ wellFunction a := by
  refine setIntegral_mono_set (integrableOn_wellKernel a ha) ?_ ?_
  · rw [EventuallyLE, ae_restrict_iff' measurableSet_Ioi]
    refine Eventually.of_forall fun x hx => ?_
    exact div_nonneg (exp_pos _).le (le_of_lt (lt_trans ha hx))
  · exact (Ioi_subset_Ioi hab).eventuallyLE

theorem wellFunction_le_exp_div (u : ℝ) (hu : 0 < u) : wellFunction u ≤ exp (-u) / u := by
  have h1 : wellFunction u ≤ ∫ x in Ioi u, exp (-x) / u := by
    refine setIntegral_mono_on (integrableOn_wellKernel u hu) ?_ measurableSet_Ioi ?_
    · have hg : IntegrableOn (fun x => (1 / u) * exp (-1 * x)) (Ioi u) :=
        (exp_neg_integrableOn_Ioi u one_pos).const_mul (1 / u)
      refine hg.congr_fun ?_ measurableSet_Ioi
      intro y _
      show 1 / u * exp (-1 * y) = exp (-y) / u
      rw [neg_one_mul]
      ring
    · intro x hx
      exact div_le_div_of_nonneg_left (exp_pos _).le hu (le_of_lt hx)
  have h2 : (∫ x in Ioi u, exp (-x) / u) = exp (-u) / u := by
    rw [integral_div, integral_exp_neg_Ioi]
  rw [h2] at h1
  exact h1

theorem wellFunction_tendsto_zero : Tendsto wellFunction atTop (𝓝 0) := by
  refine squeeze_zero' ?_ ?_ tendsto_exp_neg_atTop_nhds_zero
  · filter_upwards [eventually_gt_atTop (0 : ℝ)] with u hu
    exact wellFunction_nonneg u hu
  · filter_upwards [eventually_ge_atTop (1 : ℝ)] with u hu
    have h0 : 0 < u := lt_of_lt_of_le one_pos hu
    exact (wellFunction_le_exp_div u h0).trans (div_le_self (exp_pos _).le hu)

/-- C5.  For all positive `T`, `S`, `r`, `Q`, the Theis drawdown is
monotonically non-decreasing in time `t` (for fixed other parameters), and
its value approaches `0` as `t` approaches `0` from above. -/
theorem theis_drawdown_monotone_and_vanishes (T S r Q : ℝ)
    (hT : 0 < T) (hS : 0 < S) (hr : 0 < r) (hQ : 0 < Q) :
    (∀ t1 t2, 0 < t1 → t1 ≤ t2 →
        theis_drawdown T S r Q t1 ≤ theis_drawdown T S r Q t2) ∧
      Tendsto (theis_drawdown T S r Q) (𝓝[>] 0) (𝓝 0) := by
  have hc : 0 < r ^ 2 * S := mul_pos (pow_pos hr 2) hS
  have hK : 0 ≤ Q / (4 * π * T) := le_of_lt (div_pos hQ (by positivity))
  constructor
  · intro t1 t2 ht1 ht2
    have ht2' : 0 < t2 := lt_of_lt_of_le ht1 ht2
    have harg2 : 0 < r ^ 2 * S / (4 * T * t2) := div_pos hc (by positivity)
    have hle : r ^ 2 * S / (4 * T * t2) ≤ r ^ 2 * S / (4 * T * t1) := by
      refine div_le_div_of_nonneg_left hc.le (by positivity) ?_
      have h4T : (0 : ℝ) ≤ 4 * T := by positivity
      exact mul_le_mul_of_nonneg_left ht2 h4T
    exact mul_le_mul_of_nonneg_left (wellFunction_antitone harg2 hle) hK
  · have harg : Tendsto (fun t => r ^ 2 * S / (4 * T * t)) (𝓝[>] (0 : ℝ)) atTop := by
      have heq : (fun t : ℝ => r ^ 2 * S / (4 * T * t)) =
          fun t : ℝ => r ^ 2 * S / (4 * T) * t⁻¹ := by
        funext t
        rw [← div_div, div_eq_mul_inv (r ^ 2 * S / (4 * T)) t]
      rw [heq]
      exact tendsto_inv_zero_atTop.const_mul_atTop (div_pos hc (by positivity))
    have hcomp := wellFunction_tendsto_zero.comp harg
    have h2 : Tendsto (fun t => Q / (4 * π * T) * wellFunction (r ^ 2 * S / (4 * T * t)))
        (𝓝[>] (0 : ℝ)) (𝓝 (Q / (4 * π * T) * 0)) := hcomp.const_mul _
    simpa [theis_drawdown] using h2

/-- Closed-form instance discharging the hypotheses of
`theis_drawdown_monotone_and_vanishes` at `T = S = r = Q = 1`. -/
theorem theis_drawdown_monotone_and_vanishes_witness :
    (∀ t1 t2, 0 < t1 → t1 ≤ t2 →
        theis_drawdown 1 1 1 1 t1 ≤ theis_drawdown 1 1 1 1 t2) ∧
      Tendsto (theis_drawdown 1 1 1 1) (𝓝[>] 0) (𝓝 0) :=
  theis_drawdown_monotone_and_vanishes 1 1 1 1 one_pos one_pos one_pos one_pos

end Lagwell
